import Mathlib

/-!
Verification of the `autodj` forward-mode automatic differentiation library.

The development shallowly embeds the Rust sources:
* `src/fluid.rs` — the `Dual` trait with `chain`, `add_assign_impl`,
  `mul_assign_impl` and friends, generic over a value type and a
  gradient (derivative storage) type;
* `src/common.rs` — `DualCommon<D>` with its pure `Mul`/`Div` and the
  compound `MulAssign`/`DivAssign` operators;
* `src/single.rs` — the scalar `DualNumber` with `val`/`dual` fields;
* `src/vector.rs` and `src/solid/vector.rs` — the dynamic-vector
  gradient and its two `AddAssign` implementations;
* `src/solid/array.rs` and `src/array.rs` — the fixed-array gradient,
  its `Zero` implementation and variable seeding;
* `src/solid/sparse.rs` — the sparse key-map gradient (`merge_assign`).

Numeric values (`f64` in the source) are modelled as exact rationals
`ℚ` wherever the claims are structural identities between the
expressions the code computes; the IEEE-754 specific claim about
division by zero is settled against an explicit non-finite-aware model
`F64` (NaN / signed infinity / finite rational) that captures the
NaN-and-infinity propagation rules of IEEE-754 binary64 relevant to
the cited code paths (rounding of finite results is not modelled; it
does not affect finiteness of a division by zero).

Rust `HashMap`s are modelled as association lists with pairwise
distinct keys (`nodupKeys`), compared extensionally via `lookup`
(Rust `HashMap` equality is order-independent key-value-set equality).
-/

namespace Autodj

/-- Bundle of the gradient-component operations required by the
`Grad`/`DualComponent` traits (`fluid.rs` lines 14-36, `common.rs`
lines 18-31): additive combination, scaling by a value, negation,
subtraction and a zero.  A concrete derivative-storage strategy is a
value of this structure. -/
structure GradOps (G : Type) where
  add : G → G → G
  sub : G → G → G
  smul : G → ℚ → G
  neg : G → G
  zero : G

/-- The scalar storage strategy: one partial, plain arithmetic
(`src/solid/single.rs`, `DualComponent for f64`). -/
def scalarOps : GradOps ℚ where
  add := fun a b => a + b
  sub := fun a b => a - b
  smul := fun a c => a * c
  neg := fun a => -a
  zero := 0

/-- `solid.rs` `DualNumber<N, D>`: a value paired with a gradient. -/
structure DualNumber (G : Type) where
  value : ℚ
  dual : G
deriving DecidableEq

/-- `fluid.rs` `Dual::add_assign_impl` (lines 188-192): add the values,
then add the gradients, in place. -/
def addAssignImpl {G : Type} (ops : GradOps G) (self rhs : DualNumber G) : DualNumber G :=
  let self1 : DualNumber G := { self with value := self.value + rhs.value }
  { self1 with dual := ops.add self1.dual rhs.dual }

/-- `fluid.rs` `Dual::mul_assign_impl` (lines 195-201): the original
value is saved in `value_local` before the value field is overwritten,
then the gradient is scaled by `rhs.value` and `rhs.dual * value_local`
is accumulated. -/
def mulAssignImpl {G : Type} (ops : GradOps G) (self rhs : DualNumber G) : DualNumber G :=
  let value_local := self.value
  let self1 : DualNumber G := { self with value := self.value * rhs.value }
  let self2 : DualNumber G := { self1 with dual := ops.smul self1.dual rhs.value }
  { self2 with dual := ops.add self2.dual (ops.smul rhs.dual value_local) }

/-- `fluid.rs` `Dual::mul_impl` (lines 171-173): clone the receiver and
run `mul_assign_impl`. -/
def mulImpl {G : Type} (ops : GradOps G) (self rhs : DualNumber G) : DualNumber G :=
  mulAssignImpl ops self rhs

/-- `fluid.rs` `Dual::chain` (lines 94-105) and `common.rs`
`DualCommon::chain` (lines 71-80): evaluate `func` at the stored value,
returning the function value paired with the gradient scaled by the
derivative value. -/
def chain {G : Type} (ops : GradOps G) (self : DualNumber G) (func : ℚ → ℚ × ℚ) : DualNumber G :=
  let fd := func self.value
  { value := fd.1, dual := ops.smul self.dual fd.2 }

/-- Rust `f64::signum` restricted to the rationals reachable here:
`1` for positive numbers and for (positive) zero, `-1` for negative
numbers.  (`-0.0` and `NaN` inputs are outside the exact-rational
model.) -/
def f64signum (q : ℚ) : ℚ := if q < 0 then -1 else 1

/-- `fluid.rs` `Dual::abs` (lines 153-155) and `common.rs`
`DualCommon::abs` (lines 130-132): `chain` with `(|x|, x.signum())`,
instantiated at the scalar storage strategy. -/
def absD (x : DualNumber ℚ) : DualNumber ℚ :=
  chain scalarOps x (fun v => (|v|, f64signum v))

/-- `fluid.rs` `Dual::signum` (lines 159-161) and `common.rs`
`DualCommon::signum` (lines 135-137): `chain` with `(x.signum(), 0)`,
instantiated at the scalar storage strategy. -/
def signumD (x : DualNumber ℚ) : DualNumber ℚ :=
  chain scalarOps x (fun v => (f64signum v, 0))

/-- `common.rs` `DualCommon<D>`: a real part and a dual component. -/
structure DualCommon (D : Type) where
  real : ℚ
  dual : D
deriving DecidableEq

/-- `common.rs` `impl Mul for DualCommon` (lines 157-167):
`a = self.dual * rhs.real`, `b = rhs.dual * self.real`,
`dual = a + b` — operand values are read before any write. -/
def DualCommon.mul {D : Type} (ops : GradOps D) (self rhs : DualCommon D) : DualCommon D :=
  let real := self.real * rhs.real
  let a := ops.smul self.dual rhs.real
  let b := ops.smul rhs.dual self.real
  { real := real, dual := ops.add a b }

/-- `common.rs` `impl MulAssign for DualCommon` (lines 221-227):
`self.real *= rhs.real` runs FIRST, and the later
`self.dual += rhs.dual * self.real` therefore scales `rhs.dual` by the
already-updated product, not by the original `self.real`. -/
def DualCommon.mulAssign {D : Type} (ops : GradOps D) (self rhs : DualCommon D) : DualCommon D :=
  let s1 : DualCommon D := { self with real := self.real * rhs.real }
  let s2 : DualCommon D := { s1 with dual := ops.smul s1.dual rhs.real }
  { s2 with dual := ops.add s2.dual (ops.smul rhs.dual s2.real) }

/-- Rust `f64::powi(-2)` on a nonzero rational: `1 / (q * q)`.  (At
`q = 0` the Rust result is `+inf`; the rational model is only used at
nonzero arguments — the zero-denominator behavior is settled in the
`F64` model below.) -/
def qPowiNeg2 (q : ℚ) : ℚ := 1 / (q * q)

/-- `common.rs` `impl Div for DualCommon` (lines 180-193):
quotient rule using the original operand values throughout. -/
def DualCommon.div {D : Type} (ops : GradOps D) (self rhs : DualCommon D) : DualCommon D :=
  let real := self.real / rhs.real
  let a := ops.smul self.dual rhs.real
  let b := ops.smul rhs.dual self.real
  let reciprocal_denominator := qPowiNeg2 rhs.real
  { real := real, dual := ops.smul (ops.sub a b) reciprocal_denominator }

/-- `common.rs` `impl DivAssign for DualCommon` (lines 209-219):
`self.real /= rhs.real` runs FIRST, and the later
`b = rhs.dual * self.real` therefore scales `rhs.dual` by the
already-updated quotient, not by the original `self.real`. -/
def DualCommon.divAssign {D : Type} (ops : GradOps D) (self rhs : DualCommon D) : DualCommon D :=
  let s1 : DualCommon D := { self with real := self.real / rhs.real }
  let a := ops.smul s1.dual rhs.real
  let b := ops.smul rhs.dual s1.real
  let reciprocal_denominator := qPowiNeg2 rhs.real
  { s1 with dual := ops.smul (ops.sub a b) reciprocal_denominator }

/-- `single.rs` `DualNumber`: scalar value and scalar derivative. -/
structure SDual where
  val : ℚ
  dual : ℚ
deriving DecidableEq

/-- `single.rs` `impl Mul for DualNumber` (lines 82-90). -/
def SDual.mul (self rhs : SDual) : SDual :=
  { val := self.val * rhs.val
    dual := self.dual * rhs.val + rhs.dual * self.val }

/-- `src/solid/vector.rs` `impl AddAssign for Grad<V>` (lines 31-37):
`self.0.iter_mut().zip(rhs.0.into_iter())` mutates only the first
`min` entries of the receiver and keeps the receiver length; any
trailing entries of `rhs` beyond the receiver length are silently
dropped. -/
def solidVecAddAssign (self rhs : List ℚ) : List ℚ :=
  List.zipWith (fun a b => a + b) self rhs ++ self.drop rhs.length

/-- `src/vector.rs` `impl AddAssign<&Vector> for Vector`
(lines 175-186): first `resize` the receiver to
`max(self.len, rhs.len)` padding with `0.0`, then add `rhs`
entry-wise into the resized receiver (entries of the receiver past
`rhs.len` stay as they are). -/
def vecAddAssign (self rhs : List ℚ) : List ℚ :=
  let resized := self ++ List.replicate (max self.length rhs.length - self.length) 0
  List.zipWith (fun a b => a + b) resized rhs ++ resized.drop rhs.length

/-- Zero-extension addition as the specification words it: pad both
operands with zeros to the common maximal length, then add
component-wise. -/
def zeroExtendAdd (a b : List ℚ) : List ℚ :=
  let n := max a.length b.length
  List.zipWith (fun x y => x + y)
    (a ++ List.replicate (n - a.length) 0)
    (b ++ List.replicate (n - b.length) 0)

/-- `src/solid/vector.rs` `Zero::zero` (line 81): the empty vector. -/
def solidVecZero : List ℚ := []

/-- `src/solid/vector.rs` and `src/solid/array.rs` `Zero::is_zero`
(lines 84-87 resp. 90-93): `find` an element that is NOT zero and
report whether one was found.  The `find`-based iteration is shared by
the array strategy (over its `N` slots) and the vector strategy (over
its entries); both are covered by the list model. -/
def gradIsZeroList (g : List ℚ) : Bool :=
  (g.find? (fun e => !(e == 0))).isSome

/-- `src/solid/array.rs` `Zero::zero` (lines 86-88): the all-zero
array of length `n`, as a list. -/
def arrayZero (n : ℕ) : List ℚ := List.replicate n 0

/-- `src/solid/array.rs` `IntoVariables::into_variables`
(lines 108-131): variable `index` carries the raw value at `index`
and the gradient `from_fn(|grad_index| if grad_index == index then one
else zero)`. -/
def intoVariablesArray (n : ℕ) (arr : Fin n → ℚ) : Fin n → DualNumber (Fin n → ℚ) :=
  fun index =>
    { value := arr index
      dual := fun grad_index => if grad_index = index then 1 else 0 }

/-- `src/array.rs` `impl From<T> for DualVariables<N>` (lines 69-77):
each raw value first becomes a parameter (all-zero gradient via
`Array::default`), then slot `i` of variable `i` is overwritten with
`1`. -/
def dualVariablesFrom (n : ℕ) (values : Fin n → ℚ) : Fin n → DualCommon (Fin n → ℚ) :=
  fun i =>
    { real := values i
      dual := Function.update (fun _ => (0 : ℚ)) i 1 }

/-- Model of `std::collections::HashMap<K, ℚ>`: an association list
whose keys are pairwise distinct (`nodupKeys` below).  Insertion
order is irrelevant to `HashMap` equality, so maps are compared via
`lookup` (see `hmEq`). -/
abbrev SparseGrad (K : Type) := List (K × ℚ)

/-- `HashMap::get`: the value stored at `k`, if any (first match;
with `nodupKeys` there is at most one). -/
def lookup {K : Type} [DecidableEq K] : SparseGrad K → K → Option ℚ
  | [], _ => none
  | (k0, v0) :: rest, k => if k0 = k then some v0 else lookup rest k

/-- The `HashMap` invariant: keys are pairwise distinct. -/
def nodupKeys {K : Type} (m : SparseGrad K) : Prop :=
  (m.map Prod.fst).Nodup

instance {K : Type} [DecidableEq K] (m : SparseGrad K) : Decidable (nodupKeys m) := by
  unfold nodupKeys
  infer_instance

/-- One step of `src/solid/sparse.rs` `merge_assign` (lines 18-25):
`map1.entry(key).and_modify(|existing| *existing = op(existing, value))
.or_insert(value)` — modify the entry at `key` with `op` if present,
otherwise insert `(key, value)`. -/
def upsertWith {K : Type} [DecidableEq K] (op : ℚ → ℚ → ℚ) :
    SparseGrad K → K → ℚ → SparseGrad K
  | [], k, v => [(k, v)]
  | (k0, v0) :: rest, k, v =>
      if k0 = k then (k0, op v0 v) :: rest
      else (k0, v0) :: upsertWith op rest k v

/-- `src/solid/sparse.rs` `merge_assign` (lines 12-26): fold every
entry of `map2` into `map1` with `upsertWith`. -/
def mergeAssign {K : Type} [DecidableEq K] (op : ℚ → ℚ → ℚ)
    (map1 map2 : SparseGrad K) : SparseGrad K :=
  map2.foldl (fun acc kv => upsertWith op acc kv.1 kv.2) map1

/-- `src/solid/sparse.rs` `impl AddAssign for Grad` (lines 82-86):
`merge_assign(&mut self.0, &rhs.0, Add::add)`. -/
def sparseAdd {K : Type} [DecidableEq K] (m1 m2 : SparseGrad K) : SparseGrad K :=
  mergeAssign (fun a b => a + b) m1 m2

/-- `src/solid/sparse.rs` `Zero::zero` (lines 37-39): the empty map. -/
def sparseZero (K : Type) : SparseGrad K := []

/-- Extensional map equality: the semantics of `HashMap` `PartialEq`
(equal key sets with equal values, regardless of entry order). -/
def hmEq {K : Type} [DecidableEq K] (m1 m2 : SparseGrad K) : Prop :=
  ∀ k : K, lookup m1 k = lookup m2 k

/-- How one merged entry is read back: a key present in exactly one
operand keeps its value, a key present in both holds `op` of the two
values, a key absent from both stays absent. -/
def combineWith (op : ℚ → ℚ → ℚ) : Option ℚ → Option ℚ → Option ℚ
  | a, none => a
  | none, some v => some v
  | some w, some v => some (op w v)

/-- Idealized IEEE-754 binary64 value for the division-by-zero claim:
NaN, a signed infinity, or a finite number (represented exactly; the
model tracks finite-versus-non-finite, dropping rounding and the sign
of zero). -/
inductive F64 where
  | nan : F64
  | inf (negative : Bool) : F64
  | fin (q : ℚ) : F64
deriving DecidableEq

/-- Whether an `F64` is a finite number (neither NaN nor infinite). -/
def F64.isFinite : F64 → Bool
  | fin _ => true
  | _ => false

/-- IEEE-754 multiplication on the model: NaN propagates,
`inf * 0 = NaN`, infinities keep the product sign, finite products are
exact. -/
def F64.mul : F64 → F64 → F64
  | nan, _ => nan
  | _, nan => nan
  | inf s, inf t => inf (xor s t)
  | inf s, fin q => if q = 0 then nan else inf (xor s (decide (q < 0)))
  | fin q, inf s => if q = 0 then nan else inf (xor s (decide (q < 0)))
  | fin p, fin q => fin (p * q)

/-- IEEE-754 subtraction on the model: NaN propagates,
`inf - inf` of equal signs is NaN, an infinite operand dominates,
finite differences are exact. -/
def F64.sub : F64 → F64 → F64
  | nan, _ => nan
  | _, nan => nan
  | inf s, inf t => if s = t then nan else inf s
  | inf s, fin _ => inf s
  | fin _, inf t => inf (!t)
  | fin p, fin q => fin (p - q)

/-- IEEE-754 division on the model: NaN propagates, `inf / inf = NaN`,
`inf / finite` is infinite, `finite / inf` is zero, `0 / 0 = NaN`,
`x / 0 = inf` for finite nonzero `x`, and nonzero finite quotients are
exact. -/
def F64.div : F64 → F64 → F64
  | nan, _ => nan
  | _, nan => nan
  | inf _, inf _ => nan
  | inf s, fin q => inf (xor s (decide (q < 0)))
  | fin _, inf _ => fin 0
  | fin p, fin q =>
      if q = 0 then (if p = 0 then nan else inf (decide (p < 0)))
      else fin (p / q)

/-- Rust `f64::powi(-2)` on the model: `NaN.powi(-2) = NaN`,
`inf.powi(-2) = 0`, `0.0.powi(-2) = +inf`, otherwise the exact
positive value `1 / (q * q)`. -/
def F64.powiNeg2 : F64 → F64
  | nan => nan
  | inf _ => fin 0
  | fin q => if q = 0 then inf false else fin (1 / (q * q))

/-- `single.rs` `DualNumber` over the `F64` model. -/
structure FDual where
  val : F64
  dual : F64
deriving DecidableEq

/-- `single.rs` `impl Div for DualNumber` (lines 92-100) over the
`F64` model: `val = self.val / rhs.val`,
`dual = (self.dual * rhs.val - rhs.dual * self.val) /
(rhs.val * rhs.val)`. -/
def FDual.div (self rhs : FDual) : FDual :=
  { val := self.val.div rhs.val
    dual := ((self.dual.mul rhs.val).sub (rhs.dual.mul self.val)).div
      (rhs.val.mul rhs.val) }

/-- `common.rs` `impl Div for DualCommon` (lines 180-193) over the
`F64` model with a scalar dual component:
`dual = (self.dual * rhs.real - rhs.dual * self.real) *
rhs.real.powi(-2)`. -/
def FDual.divCommon (self rhs : FDual) : FDual :=
  { val := self.val.div rhs.val
    dual := ((self.dual.mul rhs.val).sub (rhs.dual.mul self.val)).mul
      rhs.val.powiNeg2 }

/-- A key outside the key set looks up to `none`. -/
theorem lookup_eq_none_of_not_mem {K : Type} [DecidableEq K] {m : SparseGrad K} {k : K}
    (h : k ∉ m.map Prod.fst) : lookup m k = none := by
  induction m with
  | nil => rfl
  | cons hd tl ih =>
    obtain ⟨k0, v0⟩ := hd
    simp only [List.map_cons, List.mem_cons, not_or] at h
    simp only [lookup]
    rw [if_neg (fun he => h.1 he.symm), ih h.2]

/-- Reading back a single `entry().and_modify().or_insert()` step:
at the touched key the stored value is combined with the incoming one,
every other key is untouched. -/
theorem lookup_upsertWith {K : Type} [DecidableEq K] (op : ℚ → ℚ → ℚ)
    (m : SparseGrad K) (k : K) (v : ℚ) (k1 : K) :
    lookup (upsertWith op m k v) k1 =
      if k1 = k then combineWith op (lookup m k) (some v) else lookup m k1 := by
  induction m with
  | nil =>
    simp only [upsertWith, lookup]
    by_cases h : k = k1
    · subst h
      simp [combineWith]
    · rw [if_neg h, if_neg (fun hh => h hh.symm)]
  | cons hd tl ih =>
    obtain ⟨k0, v0⟩ := hd
    simp only [upsertWith]
    by_cases h0 : k0 = k
    · subst h0
      rw [if_pos rfl]
      simp only [lookup, if_pos rfl]
      by_cases h1 : k0 = k1
      · subst h1
        simp [combineWith]
      · simp only [if_neg h1, if_neg (fun hh : k1 = k0 => h1 hh.symm)]
    · rw [if_neg h0]
      simp only [lookup, ih, if_neg h0]
      by_cases h1 : k0 = k1
      · subst h1
        simp only [if_pos rfl, if_neg h0]
      · simp only [if_neg h1]

/-- Membership in the key set after an upsert step. -/
theorem mem_keys_upsertWith {K : Type} [DecidableEq K] (op : ℚ → ℚ → ℚ)
    (m : SparseGrad K) (k : K) (v : ℚ) (k1 : K) :
    k1 ∈ (upsertWith op m k v).map Prod.fst
      ↔ k1 ∈ m.map Prod.fst ∨ k1 = k := by
  induction m with
  | nil => simp [upsertWith]
  | cons hd tl ih =>
    obtain ⟨k0, v0⟩ := hd
    simp only [upsertWith]
    by_cases h0 : k0 = k
    · subst h0
      rw [if_pos rfl]
      simp only [List.map_cons, List.mem_cons]
      tauto
    · rw [if_neg h0]
      simp only [List.map_cons, List.mem_cons, ih]
      tauto

/-- An upsert step preserves the distinct-keys invariant. -/
theorem nodupKeys_upsertWith {K : Type} [DecidableEq K] (op : ℚ → ℚ → ℚ)
    {m : SparseGrad K} (k : K) (v : ℚ) (h : nodupKeys m) :
    nodupKeys (upsertWith op m k v) := by
  induction m with
  | nil => simp [upsertWith, nodupKeys]
  | cons hd tl ih =>
    obtain ⟨k0, v0⟩ := hd
    unfold nodupKeys at h
    simp only [List.map_cons, List.nodup_cons] at h
    simp only [upsertWith]
    by_cases h0 : k0 = k
    · subst h0
      rw [if_pos rfl]
      unfold nodupKeys
      simp only [List.map_cons, List.nodup_cons]
      exact h
    · rw [if_neg h0]
      unfold nodupKeys
      simp only [List.map_cons, List.nodup_cons]
      refine ⟨?_, ih h.2⟩
      rw [mem_keys_upsertWith]
      rintro (hm | hm)
      · exact h.1 hm
      · exact h0 hm

/-- `merge_assign` preserves the distinct-keys invariant of the
receiver. -/
theorem nodupKeys_mergeAssign {K : Type} [DecidableEq K] (op : ℚ → ℚ → ℚ)
    {m1 : SparseGrad K} (m2 : SparseGrad K) (h1 : nodupKeys m1) :
    nodupKeys (mergeAssign op m1 m2) := by
  induction m2 generalizing m1 with
  | nil => exact h1
  | cons hd tl ih =>
    exact ih (nodupKeys_upsertWith op hd.1 hd.2 h1)

/-- Reading back a whole `merge_assign`: the result at any key is the
`combineWith` of the two operands at that key, provided the second
operand satisfies the `HashMap` distinct-keys invariant. -/
theorem lookup_mergeAssign {K : Type} [DecidableEq K] (op : ℚ → ℚ → ℚ)
    (m1 : SparseGrad K) {m2 : SparseGrad K} (h2 : nodupKeys m2) (k : K) :
    lookup (mergeAssign op m1 m2) k = combineWith op (lookup m1 k) (lookup m2 k) := by
  induction m2 generalizing m1 with
  | nil =>
    cases h : lookup m1 k <;> simp [mergeAssign, combineWith, lookup, h]
  | cons hd tl ih =>
    obtain ⟨k0, v0⟩ := hd
    unfold nodupKeys at h2
    simp only [List.map_cons, List.nodup_cons] at h2
    have step : mergeAssign op m1 ((k0, v0) :: tl)
        = mergeAssign op (upsertWith op m1 k0 v0) tl := rfl
    rw [step, ih _ h2.2, lookup_upsertWith]
    by_cases hk : k = k0
    · subst hk
      have htl : lookup tl k = none := lookup_eq_none_of_not_mem h2.1
      rw [if_pos rfl, htl]
      simp only [lookup, if_pos rfl]
      cases h1 : lookup m1 k <;> simp [combineWith]
    · rw [if_neg hk]
      simp only [lookup, if_neg (fun hh : k0 = k => hk hh.symm)]

/-- Division by a finite zero is never finite in the `F64` model: it
yields NaN (for a NaN, infinite-over-infinite or zero numerator) or a
signed infinity. -/
theorem F64.div_fin_zero_not_finite (x : F64) :
    (x.div (F64.fin 0)).isFinite = false := by
  cases x with
  | nan => rfl
  | inf s => rfl
  | fin p =>
    simp only [F64.div, if_pos rfl]
    by_cases hp : p = 0 <;> simp [hp, F64.isFinite]

/-- Multiplication by an infinity is never finite in the `F64` model:
it yields NaN (for a NaN or zero co-factor) or a signed infinity. -/
theorem F64.mul_inf_not_finite (x : F64) (s : Bool) :
    (x.mul (F64.inf s)).isFinite = false := by
  cases x with
  | nan => rfl
  | inf t => rfl
  | fin q =>
    simp only [F64.mul]
    by_cases hq : q = 0 <;> simp [hq, F64.isFinite]

/-- Adding an all-zero list of matching length entry-wise is the
identity. -/
theorem zipWith_add_replicate_zero (A : List ℚ) :
    List.zipWith (fun x y => x + y) A (List.replicate A.length 0) = A := by
  induction A with
  | nil => rfl
  | cons x xs ih => simp [List.replicate_succ, ih]

/-- Adding a shorter list entry-wise and keeping the receiver tail is
the same as zero-padding the shorter list first. -/
theorem zipWith_add_drop_eq_pad (b : List ℚ) :
    ∀ A : List ℚ, b.length ≤ A.length →
      List.zipWith (fun x y => x + y) A b ++ A.drop b.length
        = List.zipWith (fun x y => x + y) A (b ++ List.replicate (A.length - b.length) 0) := by
  induction b with
  | nil =>
    intro A _
    simpa using (zipWith_add_replicate_zero A).symm
  | cons y ys ih =>
    intro A h
    cases A with
    | nil => simp at h
    | cons x xs =>
      simp only [List.zipWith, List.drop, List.length_cons, List.cons_append]
      rw [ih xs (by simpa using h)]
      simp [Nat.succ_sub_succ]

/-- The older `vector.rs` `AddAssign` (resize the receiver to the
maximal length, then add entry-wise) agrees with the zero-extension
policy worded by the specification on ALL inputs — the truncation bug
is only in the `solid/vector.rs` rewrite. -/
theorem vecAddAssign_eq_zeroExtendAdd (a b : List ℚ) :
    vecAddAssign a b = zeroExtendAdd a b := by
  unfold vecAddAssign zeroExtendAdd
  have hm : a.length ≤ max a.length b.length := le_max_left _ _
  have hn : b.length ≤ max a.length b.length := le_max_right _ _
  have hlen : (a ++ List.replicate (max a.length b.length - a.length) 0).length
      = max a.length b.length := by
    simp [Nat.add_sub_cancel' hm]
  rw [zipWith_add_drop_eq_pad b _ (by rw [hlen]; exact hn), hlen]

/-- `gradIsZeroList` — the `is_zero` of the array and vector storage —
is `true` exactly when some component is non-zero. -/
theorem gradIsZeroList_iff (g : List ℚ) :
    gradIsZeroList g = true ↔ ∃ x ∈ g, x ≠ 0 := by
  unfold gradIsZeroList
  rw [List.find?_isSome]
  simp

/-- The concrete three-way merge of the specification example:
merging the maps `A ↦ 1`, `B ↦ 2` and `A ↦ 3` (keys modelled as `0`
and `1`) produces the map `A ↦ 4, B ↦ 2`. -/
theorem sparse_merge_concrete_example :
    sparseAdd (sparseAdd [((0 : ℕ), (1 : ℚ))] [(1, 2)]) [(0, 3)]
      = [(0, 4), (1, 2)] := by
  norm_num [sparseAdd, mergeAssign, upsertWith]

/-- Claim C1: for every pair of dual numbers `a` and `b`, the product
`a * b` has value `a.value * b.value` and derivative
`a.derivative * b.value + b.derivative * a.value` (the product rule),
for every derivative-storage strategy.  Stated for `fluid.rs`
`mul_impl`/`mul_assign_impl` over an arbitrary storage strategy
`ops : GradOps G` (covering the four concrete strategies), for the
scalar `single.rs` `Mul`, and for the generic `common.rs` `Mul`. -/
theorem claim_C1_product_rule {G : Type} (ops : GradOps G) (a b : DualNumber G)
    (c d : DualCommon G) (x y : SDual) :
    (mulImpl ops a b).value = a.value * b.value
    ∧ (mulImpl ops a b).dual = ops.add (ops.smul a.dual b.value) (ops.smul b.dual a.value)
    ∧ (SDual.mul x y).val = x.val * y.val
    ∧ (SDual.mul x y).dual = x.dual * y.val + y.dual * x.val
    ∧ (DualCommon.mul ops c d).real = c.real * d.real
    ∧ (DualCommon.mul ops c d).dual = ops.add (ops.smul c.dual d.real) (ops.smul d.dual c.real) :=
  ⟨rfl, rfl, rfl, rfl, rfl, rfl⟩

/-- Claim C2: for every dual number `x` and function pair `func`
mapping a value `v` to `(f(v), df(v))`, `x.chain(func)` has value
`f(x.value)` and derivative `x.derivative` scaled by `df(x.value)`;
`x` itself is unchanged (in the pure embedding `chain` is a function
of `x` and does not modify its argument). -/
theorem claim_C2_chain_rule {G : Type} (ops : GradOps G) (x : DualNumber G)
    (func : ℚ → ℚ × ℚ) :
    (chain ops x func).value = (func x.value).1
    ∧ (chain ops x func).dual = ops.smul x.dual (func x.value).2 :=
  ⟨rfl, rfl⟩

/-- Claim C3 (code evaluation at the failing input): the
`solid/vector.rs` `AddAssign` adds a length-2 receiver and a length-3
operand into a length-2 result, silently dropping the trailing
component `5` — it does NOT zero-extend the shorter operand.  The
older `vector.rs` `AddAssign` and the zero-extension policy worded by
the specification both give the length-3 result `[4, 6, 5]` on the
same input. -/
theorem claim_C3_truncating :
    solidVecAddAssign [1, 2] [3, 4, 5] = [4, 6]
    ∧ (solidVecAddAssign [1, 2] [3, 4, 5]).length = 2
    ∧ vecAddAssign [1, 2] [3, 4, 5] = [4, 6, 5]
    ∧ zeroExtendAdd [1, 2] [3, 4, 5] = [4, 6, 5]
    ∧ solidVecAddAssign [1, 2] [3, 4, 5] ≠ zeroExtendAdd [1, 2] [3, 4, 5]
    ∧ (∀ a b : List ℚ, vecAddAssign a b = zeroExtendAdd a b) := by
  refine ⟨?_, ?_, ?_, ?_, ?_, vecAddAssign_eq_zeroExtendAdd⟩ <;>
    norm_num [solidVecAddAssign, vecAddAssign, zeroExtendAdd, List.replicate]

/-- Claim C4 (code evaluation at the failing input): `common.rs`
`MulAssign` at `a = 2 + 3∆`, `b = 5 + 7∆` (scalar dual component)
produces derivative `3*5 + 7*(2*5) = 85` because it scales `rhs.dual`
by the already-updated `self.real`; the pure `Mul` produces
`3*5 + 7*2 = 29`.  `DivAssign` diverges from `Div` on the same input
for the same reason (`61/125` versus `1/25`). -/
theorem claim_C4_assign_mismatch :
    DualCommon.mulAssign scalarOps ⟨2, 3⟩ ⟨5, 7⟩ = ⟨10, 85⟩
    ∧ DualCommon.mul scalarOps ⟨2, 3⟩ ⟨5, 7⟩ = ⟨10, 29⟩
    ∧ DualCommon.mulAssign scalarOps ⟨2, 3⟩ ⟨5, 7⟩ ≠ DualCommon.mul scalarOps ⟨2, 3⟩ ⟨5, 7⟩
    ∧ DualCommon.divAssign scalarOps ⟨2, 3⟩ ⟨5, 7⟩ = ⟨2 / 5, 61 / 125⟩
    ∧ DualCommon.div scalarOps ⟨2, 3⟩ ⟨5, 7⟩ = ⟨2 / 5, 1 / 25⟩
    ∧ DualCommon.divAssign scalarOps ⟨2, 3⟩ ⟨5, 7⟩ ≠ DualCommon.div scalarOps ⟨2, 3⟩ ⟨5, 7⟩ := by
  refine ⟨?_, ?_, ?_, ?_, ?_, ?_⟩ <;>
    norm_num [DualCommon.mulAssign, DualCommon.mul, DualCommon.divAssign,
      DualCommon.div, scalarOps, qPowiNeg2]

/-- Claim C5: merging two sparse maps yields the union of the key
sets: a key present in exactly one operand keeps its value, a key
present in both maps to the sum, no key is ever removed (the result
has an entry exactly when either operand has one — even when the sum
is zero), and the zero element is the empty map. -/
theorem claim_C5_sparse_merge {K : Type} [DecidableEq K]
    (m1 m2 : SparseGrad K) (h2 : nodupKeys m2) (k : K) :
    (lookup m2 k = none → lookup (sparseAdd m1 m2) k = lookup m1 k)
    ∧ (lookup m1 k = none → lookup (sparseAdd m1 m2) k = lookup m2 k)
    ∧ ((lookup m1 k).isSome → (lookup m2 k).isSome →
        lookup (sparseAdd m1 m2) k
          = some ((lookup m1 k).getD 0 + (lookup m2 k).getD 0))
    ∧ ((lookup (sparseAdd m1 m2) k).isSome
        ↔ ((lookup m1 k).isSome ∨ (lookup m2 k).isSome))
    ∧ lookup (sparseZero K) k = none := by
  have h := lookup_mergeAssign (fun a b => a + b) m1 h2 k
  rw [show sparseAdd m1 m2 = mergeAssign (fun a b => a + b) m1 m2 from rfl]
  cases hm1 : lookup m1 k <;> cases hm2 : lookup m2 k <;>
    simp_all [combineWith] <;> rfl

/-- Claim C5 witness: the statement applied at the maps
`{0 ↦ 1, 2 ↦ 5}` and `{0 ↦ 3, 1 ↦ 2}` at key `0`. -/
theorem claim_C5_witness :
    nodupKeys [((0 : ℕ), (3 : ℚ)), (1, 2)]
    ∧ ((lookup [((0 : ℕ), (3 : ℚ)), (1, 2)] 0 = none →
        lookup (sparseAdd [((0 : ℕ), (1 : ℚ)), (2, 5)] [(0, 3), (1, 2)]) 0
          = lookup [((0 : ℕ), (1 : ℚ)), (2, 5)] 0)
    ∧ (lookup [((0 : ℕ), (1 : ℚ)), (2, 5)] 0 = none →
        lookup (sparseAdd [((0 : ℕ), (1 : ℚ)), (2, 5)] [(0, 3), (1, 2)]) 0
          = lookup [((0 : ℕ), (3 : ℚ)), (1, 2)] 0)
    ∧ ((lookup [((0 : ℕ), (1 : ℚ)), (2, 5)] 0).isSome →
        (lookup [((0 : ℕ), (3 : ℚ)), (1, 2)] 0).isSome →
        lookup (sparseAdd [((0 : ℕ), (1 : ℚ)), (2, 5)] [(0, 3), (1, 2)]) 0
          = some ((lookup [((0 : ℕ), (1 : ℚ)), (2, 5)] 0).getD 0
              + (lookup [((0 : ℕ), (3 : ℚ)), (1, 2)] 0).getD 0))
    ∧ ((lookup (sparseAdd [((0 : ℕ), (1 : ℚ)), (2, 5)] [(0, 3), (1, 2)]) 0).isSome
        ↔ ((lookup [((0 : ℕ), (1 : ℚ)), (2, 5)] 0).isSome
          ∨ (lookup [((0 : ℕ), (3 : ℚ)), (1, 2)] 0).isSome))
    ∧ lookup (sparseZero ℕ) 0 = none) :=
  ⟨by decide, claim_C5_sparse_merge [(0, 1), (2, 5)] [(0, 3), (1, 2)] (by decide) 0⟩

/-- Claim C6: sparse-map merge is commutative and associative up to
`HashMap` equality (equal key-value sets): for all maps satisfying
the distinct-keys invariant, merging in either order or grouping
yields extensionally equal maps. -/
theorem claim_C6_merge_comm_assoc {K : Type} [DecidableEq K]
    (g1 g2 g3 : SparseGrad K)
    (h1 : nodupKeys g1) (h2 : nodupKeys g2) (h3 : nodupKeys g3) :
    hmEq (sparseAdd g1 g2) (sparseAdd g2 g1)
    ∧ hmEq (sparseAdd (sparseAdd g1 g2) g3) (sparseAdd g1 (sparseAdd g2 g3)) := by
  constructor
  · intro k
    rw [show sparseAdd g1 g2 = mergeAssign (fun a b => a + b) g1 g2 from rfl,
        show sparseAdd g2 g1 = mergeAssign (fun a b => a + b) g2 g1 from rfl,
        lookup_mergeAssign _ _ h2, lookup_mergeAssign _ _ h1]
    cases lookup g1 k <;> cases lookup g2 k <;> simp [combineWith, add_comm]
  · intro k
    have hg12 : nodupKeys (sparseAdd g1 g2) :=
      nodupKeys_mergeAssign (fun a b => a + b) g2 h1
    have hg23 : nodupKeys (sparseAdd g2 g3) :=
      nodupKeys_mergeAssign (fun a b => a + b) g3 h2
    rw [show sparseAdd (sparseAdd g1 g2) g3
          = mergeAssign (fun a b => a + b) (sparseAdd g1 g2) g3 from rfl,
        show sparseAdd g1 (sparseAdd g2 g3)
          = mergeAssign (fun a b => a + b) g1 (sparseAdd g2 g3) from rfl,
        lookup_mergeAssign _ _ h3, lookup_mergeAssign _ _ hg23,
        show sparseAdd g1 g2 = mergeAssign (fun a b => a + b) g1 g2 from rfl,
        show sparseAdd g2 g3 = mergeAssign (fun a b => a + b) g2 g3 from rfl,
        lookup_mergeAssign _ _ h2, lookup_mergeAssign _ _ h3]
    cases lookup g1 k <;> cases lookup g2 k <;> cases lookup g3 k <;>
      simp [combineWith, add_assoc]

/-- Claim C6 witness: the statement applied at the specification
example maps `{A ↦ 1}`, `{B ↦ 2}`, `{A ↦ 3}` (keys `A = 0`,
`B = 1`). -/
theorem claim_C6_witness :
    nodupKeys [((0 : ℕ), (1 : ℚ))]
    ∧ nodupKeys [((1 : ℕ), (2 : ℚ))]
    ∧ nodupKeys [((0 : ℕ), (3 : ℚ))]
    ∧ (hmEq (sparseAdd [((0 : ℕ), (1 : ℚ))] [(1, 2)])
        (sparseAdd [((1 : ℕ), (2 : ℚ))] [(0, 1)])
    ∧ hmEq (sparseAdd (sparseAdd [((0 : ℕ), (1 : ℚ))] [(1, 2)]) [(0, 3)])
        (sparseAdd [((0 : ℕ), (1 : ℚ))] (sparseAdd [(1, 2)] [(0, 3)]))) :=
  ⟨by decide, by decide, by decide,
    claim_C6_merge_comm_assoc [(0, 1)] [(1, 2)] [(0, 3)]
      (by decide) (by decide) (by decide)⟩

/-- Claim C7: seeding `n` raw values into fixed-array variables gives
variable `i` the value of the `i`-th raw input and the standard basis
vector as gradient — the gradient rows form the identity matrix.
Stated for both the `solid/array.rs` `into_variables` and the older
`array.rs` `From<T> for DualVariables<N>`. -/
theorem claim_C7_seeding_identity (n : ℕ) (arr : Fin n → ℚ) (i j : Fin n) :
    (intoVariablesArray n arr i).value = arr i
    ∧ (intoVariablesArray n arr i).dual j = (if j = i then 1 else 0)
    ∧ (dualVariablesFrom n arr i).real = arr i
    ∧ (dualVariablesFrom n arr i).dual j = (if j = i then 1 else 0) := by
  refine ⟨rfl, rfl, rfl, ?_⟩
  simp [dualVariablesFrom, Function.update_apply]

/-- Claim C8 counterexample: at the input `x = 0 + 1∆` the code gives
`abs(x)` the derivative `1`, not `0 * x.derivative = 0`, because Rust
`f64::signum` returns `1.0` at (positive) zero. -/
theorem claim_C8_counterexample :
    (absD { value := 0, dual := 1 }).dual
      ≠ 0 * (DualNumber.mk (0 : ℚ) (1 : ℚ)).dual := by
  norm_num [absD, chain, scalarOps, f64signum]

/-- Claim C8 amended: for input value `0`, `abs` has derivative
`1 * x.derivative` (the chain factor is `signum(0) = 1`, Rust
`f64::signum` of positive zero); `signum` itself has derivative
exactly zero for every input. -/
theorem claim_C8_amended (x : DualNumber ℚ) :
    (x.value = 0 → (absD x).dual = 1 * x.dual)
    ∧ (signumD x).dual = 0 := by
  constructor
  · intro h
    simp [absD, chain, scalarOps, f64signum, h]
  · simp [signumD, chain, scalarOps]

/-- Claim C8 witness: the amended statement applied at `x = 0 + 5∆`. -/
theorem claim_C8_witness :
    (DualNumber.mk (0 : ℚ) (5 : ℚ)).value = 0
    ∧ (absD { value := 0, dual := 5 }).dual = 1 * (DualNumber.mk (0 : ℚ) (5 : ℚ)).dual :=
  ⟨rfl, (claim_C8_amended { value := 0, dual := 5 }).1 rfl⟩

/-- Claim C9: for every dual number `a` and every `b` whose value is
(finite) zero, `a / b` is a total computation (the embedding is a
total function, mirroring that Rust float division never panics) and
both the value and the derivative channel of the result are NaN or a
signed infinity — never finite.  Stated for the `single.rs` `Div` and
the `common.rs` `Div` (scalar dual component) over the `F64` model. -/
theorem claim_C9_div_by_zero (a b : FDual) (h : b.val = F64.fin 0) :
    (FDual.div a b).val.isFinite = false
    ∧ (FDual.div a b).dual.isFinite = false
    ∧ (FDual.divCommon a b).val.isFinite = false
    ∧ (FDual.divCommon a b).dual.isFinite = false := by
  refine ⟨?_, ?_, ?_, ?_⟩ <;> simp only [FDual.div, FDual.divCommon, h]
  · exact F64.div_fin_zero_not_finite _
  · rw [show (F64.fin 0).mul (F64.fin 0) = F64.fin 0 by simp [F64.mul]]
    exact F64.div_fin_zero_not_finite _
  · exact F64.div_fin_zero_not_finite _
  · rw [show (F64.fin 0).powiNeg2 = F64.inf false by simp [F64.powiNeg2]]
    exact F64.mul_inf_not_finite _ _

/-- Claim C9 witness: the statement applied at `a = 1 + 2∆` and
`b = 0 + 3∆`. -/
theorem claim_C9_witness :
    (FDual.mk (F64.fin 0) (F64.fin 3)).val = F64.fin 0
    ∧ ((FDual.div ⟨F64.fin 1, F64.fin 2⟩ ⟨F64.fin 0, F64.fin 3⟩).val.isFinite = false
      ∧ (FDual.div ⟨F64.fin 1, F64.fin 2⟩ ⟨F64.fin 0, F64.fin 3⟩).dual.isFinite = false
      ∧ (FDual.divCommon ⟨F64.fin 1, F64.fin 2⟩ ⟨F64.fin 0, F64.fin 3⟩).val.isFinite = false
      ∧ (FDual.divCommon ⟨F64.fin 1, F64.fin 2⟩ ⟨F64.fin 0, F64.fin 3⟩).dual.isFinite = false) :=
  ⟨rfl, claim_C9_div_by_zero ⟨F64.fin 1, F64.fin 2⟩ ⟨F64.fin 0, F64.fin 3⟩ rfl⟩

/-- Claim C10: the `Zero::is_zero` of the fixed-array and
dynamic-vector storages returns `true` exactly when some stored
component is non-zero (the iteration searches for a non-zero element
and reports whether it found one), so the all-zero gradient —
including the ones produced by `zero()` — reports `is_zero() ==
false`. -/
theorem claim_C10_is_zero_inverted :
    (∀ g : List ℚ, gradIsZeroList g = true ↔ ∃ x ∈ g, x ≠ 0)
    ∧ (∀ n : ℕ, gradIsZeroList (arrayZero n) = false)
    ∧ gradIsZeroList solidVecZero = false := by
  refine ⟨gradIsZeroList_iff, ?_, rfl⟩
  intro n
  cases hb : gradIsZeroList (arrayZero n) with
  | false => rfl
  | true =>
    obtain ⟨x, hx, hne⟩ := (gradIsZeroList_iff (arrayZero n)).mp hb
    exact absurd (List.eq_of_mem_replicate hx) hne

end Autodj




